import Mathlib

/-!
Verification of the streaming chat session engine of the multi-agent deep
research frontend.  The definitions below are a shallow embedding of
`frontend/src/api.ts` (the SSE frame decoder and event classifier inside
`sendChatMessage`) and of the `App` component state machine
(`sendMessage`, `selectConversation`, `newConversation`,
`renameConversation`, `deleteConversation`, initial load) from the
frontend source.

Strings are modelled as `List Char`.  The `TextDecoder` with
`stream: true` guarantees that byte chunks are turned into text without
ever splitting a multi-byte code point across `feed` calls, so chunk
boundaries are faithfully modelled at character granularity.
Clock values (`Date.now()`, `Date.now() / 1000`) are modelled as a single
abstract `Nat` instant; the division by 1000 is a strictly monotone
rescaling that no verified property inspects.
-/

abbrev Str := List Char

/-- `buffer.split('\n\n')` of JavaScript: split a character sequence at
each non-overlapping occurrence of the two-newline frame delimiter,
scanning left to right.  Always returns at least one piece. -/
def split2 : Str → List Str
  | [] => [[]]
  | '\n' :: '\n' :: rest => [] :: split2 rest
  | c :: rest =>
    match split2 rest with
    | [] => [[c]]
    | h :: t => (c :: h) :: t

theorem split2_nil : split2 [] = [[]] := rfl

/-- Splitting at a leading delimiter. -/
theorem split2_delim (r : Str) : split2 ('\n' :: '\n' :: r) = [] :: split2 r := rfl

/-- Characterisation of `split2` on a nonempty list as a guarded
equation, convenient for case analysis. -/
theorem split2_eq_cons (c : Char) (rest : Str) :
    split2 (c :: rest) =
      if c = '\n' ∧ rest.head? = some '\n' then
        [] :: split2 rest.tail
      else
        match split2 rest with
        | [] => [[c]]
        | h :: t => (c :: h) :: t := by
  rw [split2.eq_def]
  split
  · rename_i heq
    exact absurd heq (List.cons_ne_nil c rest)
  · rename_i x r heq
    injection heq with h1 h2
    subst h1
    subst h2
    rw [if_pos ⟨rfl, rfl⟩]
    rfl
  · rename_i c' rest' hguard heq
    injection heq with h1 h2
    subst h1
    subst h2
    have hneg : ¬(c = '\n' ∧ rest.head? = some '\n') := by
      intro ⟨hx1, hx2⟩
      cases rest with
      | nil => simp at hx2
      | cons b r =>
        simp only [List.head?_cons, Option.some.injEq] at hx2
        exact hguard r hx1 (by rw [hx2])
    rw [if_neg hneg]

/-- The catch-all equation of `split2`, usable whenever the head of the
list does not start the two-newline delimiter. -/
theorem split2_cons (c : Char) (rest : Str)
    (hg : ¬(c = '\n' ∧ rest.head? = some '\n')) :
    split2 (c :: rest) =
      match split2 rest with
      | [] => [[c]]
      | h :: t => (c :: h) :: t := by
  rw [split2_eq_cons, if_neg hg]

/-- The guard of the functional induction principle implies the negated
delimiter condition. -/
theorem split2_guard_neg {c : Char} {rest : Str}
    (hg : ∀ (r : List Char), c = '\n' → rest = '\n' :: r → False) :
    ¬(c = '\n' ∧ rest.head? = some '\n') := by
  intro ⟨h1, h2⟩
  cases rest with
  | nil => simp at h2
  | cons b r =>
    simp only [List.head?_cons, Option.some.injEq] at h2
    exact hg r h1 (by rw [h2])

theorem split2_ne_nil (s : Str) : split2 s ≠ [] := by
  induction s using split2.induct with
  | case1 => rw [split2_nil]; simp
  | case2 rest ih =>
    rw [split2_delim]
    simp
  | case3 c rest hg hnil ih => exact absurd hnil ih
  | case4 c rest hg h t hs ih =>
    rw [split2_cons c rest (split2_guard_neg hg), hs]
    simp

/-- The head piece of splitting a nonempty list either is empty (the
list begins with the delimiter) or begins with the list's first
character. -/
theorem split2_head_cases (b : Char) (r : Str) (h : Str) (t : List Str)
    (heq : split2 (b :: r) = h :: t) :
    h = [] ∨ ∃ h₀, h = b :: h₀ := by
  by_cases hx : b = '\n' ∧ r.head? = some '\n'
  · rw [split2_eq_cons, if_pos hx] at heq
    injection heq with he1 he2
    left
    exact he1.symm
  · rw [split2_cons b r hx] at heq
    rcases hs : split2 r with _ | ⟨h₁, t₁⟩ <;> rw [hs] at heq
    · injection heq with he1 he2
      right
      exact ⟨[], he1.symm⟩
    · injection heq with he1 he2
      right
      exact ⟨h₁, he1.symm⟩

/-- Last element of a piece list (`lines.pop()` with `|| ''`). -/
def lastD : List Str → Str
  | [] => []
  | [x] => x
  | _ :: x :: xs => lastD (x :: xs)

theorem lastD_cons_cons (x y : Str) (t : List Str) :
    lastD (x :: y :: t) = lastD (y :: t) := rfl

theorem dropLast_cons_cons (x y : Str) (t : List Str) :
    (x :: y :: t).dropLast = x :: (y :: t).dropLast := rfl

/-- Key compositional property of the frame splitter: splitting `p ++ c`
is the already-complete pieces of `p` followed by the split of the
pending remainder of `p` extended with `c`. -/
theorem split2_append (p c : Str) :
    split2 (p ++ c) =
      (split2 p).dropLast ++ split2 (lastD (split2 p) ++ c) := by
  induction p using split2.induct with
  | case1 => simp [split2_nil, lastD]
  | case2 r ih =>
    have hstep : split2 (('\n' :: '\n' :: r) ++ c) = [] :: split2 (r ++ c) := by
      rw [show ('\n' :: '\n' :: r) ++ c = '\n' :: '\n' :: (r ++ c) from rfl,
        split2_delim]
    rcases hsr : split2 r with _ | ⟨h, t⟩
    · exact absurd hsr (split2_ne_nil r)
    · have hp : split2 ('\n' :: '\n' :: r) = [] :: h :: t := by
        rw [split2_delim, hsr]
      rw [hstep, ih, hsr, hp, dropLast_cons_cons, lastD_cons_cons]
      rfl
  | case3 a rest hg hnil ih => exact absurd hnil (split2_ne_nil rest)
  | case4 a rest hg h t hsr ih =>
    have hneg : ¬(a = '\n' ∧ rest.head? = some '\n') := split2_guard_neg hg
    cases rest with
    | nil =>
      have hp : split2 [a] = [[a]] := by
        rw [split2_cons a [] (by simp), split2_nil]
      rw [hp]
      rfl
    | cons b r =>
      have hbdisj : a ≠ '\n' ∨ b ≠ '\n' := by
        by_cases hx : a = '\n'
        · right
          intro hb
          exact hneg ⟨hx, by simp [hb]⟩
        · left
          exact hx
      have hneg2 : ¬(a = '\n' ∧ ((b :: r) ++ c).head? = some '\n') := by
        intro ⟨h1, h2⟩
        simp only [List.cons_append, List.head?_cons, Option.some.injEq] at h2
        exact hneg ⟨h1, by simp [h2]⟩
      have hstep : split2 ((a :: b :: r) ++ c) =
          match split2 ((b :: r) ++ c) with
          | [] => [[a]]
          | h' :: t' => (a :: h') :: t' := by
        have := split2_cons a ((b :: r) ++ c) hneg2
        simpa using this
      · have hp : split2 (a :: b :: r) = (a :: h) :: t := by
          rw [split2_cons a (b :: r) hneg, hsr]
        cases t with
        | nil =>
          -- split2 (b :: r) = [h] : the whole of b :: r is still pending
          have hIH : split2 ((b :: r) ++ c) = split2 (h ++ c) := by
            rw [ih, hsr]
            rfl
          -- the head of h ++ c cannot complete a delimiter with a
          have hhead : ¬(a = '\n' ∧ (h ++ c).head? = some '\n') := by
            rcases hbdisj with hx | hx
            · intro hcon
              exact hx hcon.1
            · have hbr : ¬(b = '\n' ∧ r.head? = some '\n') := by
                intro hcon
                exact hx hcon.1
              rw [split2_cons b r hbr] at hsr
              rcases hs2 : split2 r with _ | ⟨h₁, t₁⟩
              · exact absurd hs2 (split2_ne_nil r)
              · rw [hs2] at hsr
                injection hsr with he1 he2
                intro hcon
                rw [← he1] at hcon
                simp only [List.cons_append, List.head?_cons, Option.some.injEq] at hcon
                exact hx hcon.2
          rcases hsc : split2 (h ++ c) with _ | ⟨h', t'⟩
          · exact absurd hsc (split2_ne_nil (h ++ c))
          · have hfinal : split2 (a :: (h ++ c)) = (a :: h') :: t' := by
              rw [split2_cons a (h ++ c) hhead, hsc]
            rw [hstep, hIH, hsc, hp]
            simp only [List.dropLast_single, List.nil_append, lastD]
            rw [show (a :: h) ++ c = a :: (h ++ c) from rfl, hfinal]
        | cons t₁ t₂ =>
          have hIH : split2 ((b :: r) ++ c) =
              (h :: t₁ :: t₂).dropLast ++ split2 (lastD (h :: t₁ :: t₂) ++ c) := by
            rw [ih, hsr]
          rw [hstep, hIH, hp]
          rw [dropLast_cons_cons, lastD_cons_cons, dropLast_cons_cons, lastD_cons_cons]
          rcases hsd : split2 (lastD (t₁ :: t₂) ++ c) with _ | ⟨h', t'⟩
          · exact absurd hsd (split2_ne_nil _)
          · cases hd : (t₁ :: t₂).dropLast with
            | nil => simp [hd]
            | cons d₁ d₂ => simp [hd]

/-- One iteration of the `while` read loop in `sendChatMessage`
(`api.ts` lines 95–97): append the decoded chunk to the pending buffer,
split on the double-newline delimiter, emit every piece but the last,
and keep the last piece as the new pending buffer. -/
def feed (st : List Str × Str) (chunk : Str) : List Str × Str :=
  let pieces := split2 (st.2 ++ chunk)
  (st.1 ++ pieces.dropLast, lastD pieces)

/-- Running the whole read loop over a sequence of chunks, starting from
an empty buffer (`let buffer = ''`).  Returns the emitted complete
frames in emission order, together with the final pending buffer, which
is discarded when the stream ends (`if (done) break`). -/
def decodeChunks (chunks : List Str) : List Str × Str :=
  chunks.foldl feed ([], [])

theorem dropLast_append_ne_nil (l₁ l₂ : List Str) (h : l₂ ≠ []) :
    (l₁ ++ l₂).dropLast = l₁ ++ l₂.dropLast := by
  induction l₁ with
  | nil => rfl
  | cons x xs ih =>
    cases hx : xs ++ l₂ with
    | nil =>
      rcases List.append_eq_nil.mp hx with ⟨h1, h2⟩
      exact absurd h2 h
    | cons y ys =>
      rw [List.cons_append, hx, dropLast_cons_cons, ← hx, ih, List.cons_append]

theorem lastD_append_ne_nil (l₁ l₂ : List Str) (h : l₂ ≠ []) :
    lastD (l₁ ++ l₂) = lastD l₂ := by
  induction l₁ with
  | nil => rfl
  | cons x xs ih =>
    cases hx : xs ++ l₂ with
    | nil =>
      rcases List.append_eq_nil.mp hx with ⟨h1, h2⟩
      exact absurd h2 h
    | cons y ys =>
      rw [List.cons_append, hx, lastD_cons_cons, ← hx, ih]

/-- Invariant of the read loop: after feeding any list of chunks on top
of an already-processed prefix `p`, the emitted frames and the pending
buffer are exactly those determined by the full concatenated text. -/
theorem foldl_feed_eq (cs : List Str) (p : Str) :
    cs.foldl feed ((split2 p).dropLast, lastD (split2 p)) =
      ((split2 (p ++ cs.flatten)).dropLast, lastD (split2 (p ++ cs.flatten))) := by
  induction cs generalizing p with
  | nil => simp
  | cons c cs' ih =>
    have hpieces : split2 (p ++ c) =
        (split2 p).dropLast ++ split2 (lastD (split2 p) ++ c) := split2_append p c
    have hne : split2 (lastD (split2 p) ++ c) ≠ [] := split2_ne_nil _
    have hfeed : feed ((split2 p).dropLast, lastD (split2 p)) c =
        ((split2 (p ++ c)).dropLast, lastD (split2 (p ++ c))) := by
      unfold feed
      rw [hpieces, dropLast_append_ne_nil _ _ hne, lastD_append_ne_nil _ _ hne]
    rw [List.foldl_cons, hfeed, ih (p ++ c)]
    simp [List.append_assoc]

theorem decodeChunks_eq (cs : List Str) :
    decodeChunks cs = ((split2 cs.flatten).dropLast, lastD (split2 cs.flatten)) := by
  have h0 : (([], []) : List Str × Str) =
      ((split2 []).dropLast, lastD (split2 [])) := by
    simp [split2, lastD]
  unfold decodeChunks
  rw [h0, foldl_feed_eq cs []]
  rfl

/-- C1: Frame-decoder chunk-boundary independence.  For every byte
stream and for all ways of splitting it into chunks fed successively to
the decoder loop, the decoder emits the identical sequence of complete
frames — exactly the pieces before the last of splitting the whole
stream on the double-newline delimiter, so a frame boundary landing
mid-chunk is deferred, no frame is emitted twice, and no byte of a
complete frame is dropped. -/
theorem frameDecoder_chunk_boundary_independence (cs₁ cs₂ : List Str)
    (h : cs₁.flatten = cs₂.flatten) :
    (decodeChunks cs₁).1 = (decodeChunks cs₂).1 ∧
    (decodeChunks cs₁).1 = (split2 cs₁.flatten).dropLast := by
  rw [decodeChunks_eq cs₁, decodeChunks_eq cs₂]
  exact ⟨by rw [h], rfl⟩

/-- Witness for C1: the stream `"a\n\nb\n\nc"` cut in the middle of a
frame and in the middle of the delimiter yields the same two complete
frames `a`, `b` as the uncut stream. -/
theorem frameDecoder_chunk_boundary_independence_witness :
    (("a\n".toList) :: ("\nb\n".toList) :: [("\nc".toList)]).flatten =
        [("a\n\nb\n\nc".toList)].flatten ∧
    (decodeChunks (("a\n".toList) :: ("\nb\n".toList) :: [("\nc".toList)])).1 =
        (decodeChunks [("a\n\nb\n\nc".toList)]).1 := by
  refine ⟨by decide, ?_⟩
  exact (frameDecoder_chunk_boundary_independence _ _ (by decide)).1

/-- Structured data values produced by `JSON.parse`.  Numbers keep their
raw source token: no verified property inspects numeric values. -/
inductive Json where
  | null
  | bool (b : Bool)
  | num (raw : Str)
  | str (s : Str)
  | arr (elems : List Json)
  | obj (fields : List (Str × Json))

/-- JSON whitespace (the only four characters `JSON.parse` skips). -/
def isJsonWs (c : Char) : Bool :=
  c = ' ' || c = '\t' || c = '\n' || c = '\r'

def hexDigit? (c : Char) : Option Nat :=
  if '0' ≤ c ∧ c ≤ '9' then some (c.toNat - '0'.toNat)
  else if 'a' ≤ c ∧ c ≤ 'f' then some (c.toNat - 'a'.toNat + 10)
  else if 'A' ≤ c ∧ c ≤ 'F' then some (c.toNat - 'A'.toNat + 10)
  else none

def isDigitCh (c : Char) : Bool := '0' ≤ c && c ≤ '9'

/-- Body of a JSON string literal, after the opening quote.  Returns the
decoded characters and the input remaining after the closing quote.
Strict like `JSON.parse`: raw control characters and unknown escapes are
rejected. -/
def parseStringBody : Nat → Str → Option (Str × Str)
  | 0, _ => none
  | _ + 1, [] => none
  | fuel + 1, c :: rest =>
    if c = '"' then some ([], rest)
    else if c = '\\' then
      match rest with
      | [] => none
      | e :: rest' =>
        let cont : Char → Str → Option (Str × Str) := fun ch rs =>
          (parseStringBody fuel rs).map (fun p => (ch :: p.1, p.2))
        if e = '"' then cont '"' rest'
        else if e = '\\' then cont '\\' rest'
        else if e = '/' then cont '/' rest'
        else if e = 'b' then cont '\x08' rest'
        else if e = 'f' then cont '\x0c' rest'
        else if e = 'n' then cont '\n' rest'
        else if e = 'r' then cont '\r' rest'
        else if e = 't' then cont '\t' rest'
        else if e = 'u' then
          match rest' with
          | h1 :: h2 :: h3 :: h4 :: rest'' =>
            match hexDigit? h1, hexDigit? h2, hexDigit? h3, hexDigit? h4 with
            | some a, some b, some c', some d =>
              cont (Char.ofNat (((a * 16 + b) * 16 + c') * 16 + d)) rest''
            | _, _, _, _ => none
          | _ => none
        else none
    else if c.toNat < 32 then none
    else (parseStringBody fuel rest).map (fun p => (c :: p.1, p.2))

/-- A JSON number token (strict grammar: optional minus, no leading
zeros, optional fraction and exponent), returned raw. -/
def parseNumber (s : Str) : Option (Str × Str) :=
  let (neg, s1) :=
    match s with
    | '-' :: r => (['-'], r)
    | _ => (([] : Str), s)
  match s1 with
  | [] => none
  | d :: r =>
    if d = '0' then
      let intPart := [d]
      let afterInt := r
      parseNumTail neg intPart afterInt
    else if isDigitCh d then
      let more := r.takeWhile isDigitCh
      let afterInt := r.dropWhile isDigitCh
      parseNumTail neg (d :: more) afterInt
    else none
where
  parseNumTail (neg intPart : Str) (s : Str) : Option (Str × Str) :=
    let (frac, s2) :=
      match s with
      | '.' :: r =>
        let ds := r.takeWhile isDigitCh
        if ds = [] then (none, s)
        else (some ('.' :: ds), r.dropWhile isDigitCh)
      | _ => (none, s)
    match frac, s2 with
    | none, '.' :: _ => none
    | _, _ =>
      let fracPart := frac.getD []
      let (expPart, s3) :=
        match s2 with
        | e :: r =>
          if e = 'e' ∨ e = 'E' then
            let (sign, r2) :=
              match r with
              | '+' :: r' => (['+'], r')
              | '-' :: r' => (['-'], r')
              | _ => (([] : Str), r)
            let ds := r2.takeWhile isDigitCh
            if ds = [] then (none, s2)
            else (some (e :: (sign ++ ds)), r2.dropWhile isDigitCh)
          else (none, s2)
        | [] => (none, s2)
      match expPart, s3 with
      | none, e :: _ =>
        if e = 'e' ∨ e = 'E' then none
        else some (neg ++ intPart ++ fracPart, s3)
      | _, _ => some (neg ++ intPart ++ fracPart ++ expPart.getD [], s3)

mutual

/-- Recursive-descent JSON value parser (fuel-indexed). -/
def parseValue : Nat → Str → Option (Json × Str)
  | 0, _ => none
  | fuel + 1, s =>
    match s.dropWhile isJsonWs with
    | [] => none
    | c :: rest =>
      if c = 'n' then
        if rest.take 3 = ['u', 'l', 'l'] then some (.null, rest.drop 3) else none
      else if c = 't' then
        if rest.take 3 = ['r', 'u', 'e'] then some (.bool true, rest.drop 3) else none
      else if c = 'f' then
        if rest.take 4 = ['a', 'l', 's', 'e'] then some (.bool false, rest.drop 4)
        else none
      else if c = '"' then
        (parseStringBody fuel rest).map (fun p => (.str p.1, p.2))
      else if c = '[' then
        match rest.dropWhile isJsonWs with
        | ']' :: r2 => some (.arr [], r2)
        | r1 => (parseElems fuel r1).map (fun p => (.arr p.1, p.2))
      else if c = '\x7b' then
        match rest.dropWhile isJsonWs with
        | '\x7d' :: r2 => some (.obj [], r2)
        | r1 => (parseFields fuel r1).map (fun p => (.obj p.1, p.2))
      else
        (parseNumber (c :: rest)).map (fun p => (.num p.1, p.2))

/-- Comma-separated array elements up to the closing bracket. -/
def parseElems : Nat → Str → Option (List Json × Str)
  | 0, _ => none
  | fuel + 1, s =>
    match parseValue fuel s with
    | none => none
    | some (v, r) =>
      match r.dropWhile isJsonWs with
      | ',' :: r2 => (parseElems fuel r2).map (fun p => (v :: p.1, p.2))
      | ']' :: r2 => some ([v], r2)
      | _ => none

/-- Comma-separated object members up to the closing brace. -/
def parseFields : Nat → Str → Option (List (Str × Json) × Str)
  | 0, _ => none
  | fuel + 1, s =>
    match s.dropWhile isJsonWs with
    | '"' :: rest =>
      match parseStringBody fuel rest with
      | none => none
      | some (key, r1) =>
        match r1.dropWhile isJsonWs with
        | ':' :: r2 =>
          match parseValue fuel r2 with
          | none => none
          | some (v, r3) =>
            match r3.dropWhile isJsonWs with
            | ',' :: r4 => (parseFields fuel r4).map (fun p => ((key, v) :: p.1, p.2))
            | '\x7d' :: r4 => some ([(key, v)], r4)
            | _ => none
        | _ => none
    | _ => none

end

/-- `JSON.parse`: parse one value surrounded by optional whitespace;
anything else (trailing text included) is a parse error. -/
def jsonParse (s : Str) : Option Json :=
  match parseValue (2 * s.length + 2) s with
  | some (v, rest) => if rest.dropWhile isJsonWs = [] then some v else none
  | none => none

/-- The whitespace characters removed by JavaScript `String.trim()`
(the common ASCII subset that can occur in this transport). -/
def isTrimWs (c : Char) : Bool :=
  c = ' ' || c = '\t' || c = '\n' || c = '\r' || c = '\x0b' || c = '\x0c'

/-- `line.trim()`: strip whitespace from both ends. -/
def jsTrim (s : Str) : Str :=
  ((s.dropWhile isTrimWs).reverse.dropWhile isTrimWs).reverse

/-- JavaScript property access `obj[key]` on a parsed value: objects
yield the value of the last member with that key (later duplicates win
in `JSON.parse`), every other non-null value yields `undefined`
(modelled as `none`). -/
def getField (j : Json) (key : Str) : Option Json :=
  match j with
  | .obj fields => (fields.reverse.find? (fun f => f.1 == key)).map (fun f => f.2)
  | _ => none

mutual

/-- JavaScript string coercion of a value, as it happens in
`fullResponse += token` and in the template literal of the error
message builder.  Numbers are approximated by their raw source form; no
verified property depends on that case. -/
def jsToStr : Json → Str
  | .str s => s
  | .null => ("null".toList)
  | .bool true => ("true".toList)
  | .bool false => ("false".toList)
  | .num raw => raw
  | .arr [] => []
  | .arr (e :: es) => jsToStr e ++ jsToStrRest es
  | .obj _ => ("[object Object]".toList)

/-- Tail of the comma-joined array coercion (`Array.prototype.toString`
joins the recursively coerced elements with commas). -/
def jsToStrRest : List Json → Str
  | [] => []
  | e :: es => [','] ++ jsToStr e ++ jsToStrRest es

end

/-- Coercion of a possibly-`undefined` value (`undefined` prints as the
string `undefined`, exactly what `+=` would produce). -/
def jsCoerce : Option Json → Str
  | none => ("undefined".toList)
  | some j => jsToStr j

/-- The classified events dispatched by the `for` loop of
`sendChatMessage` (`api.ts` lines 99–121). -/
inductive Event where
  | done
  | error (message : Option Json)
  | fullResponse (message : Option Json)
  | streamToken (message : Option Json)
  | trace (payload : Json)

/-- Classification of one complete frame (`api.ts` lines 100–120):
trim it, require the `data: ` prefix, `JSON.parse` the remainder, and
dispatch on the `type` discriminator; a parse failure — or a `null`
payload, whose property access throws inside the same `try` — yields no
event.  Unknown `type`s fall through to an agent-trace event. -/
def classify (frame : Str) : Option Event :=
  let trimmed := jsTrim frame
  if trimmed.take 6 = ("data: ".toList) then
    match jsonParse (trimmed.drop 6) with
    | none => none
    | some .null => none
    | some j =>
      match getField j ("type".toList) with
      | some (.str t) =>
        if t = ("done".toList) then some .done
        else if t = ("error".toList) then some (.error (getField j ("message".toList)))
        else if t = ("full_response".toList) then
          some (.fullResponse (getField j ("message".toList)))
        else if t = ("stream_token".toList) then
          some (.streamToken (getField j ("message".toList)))
        else some (.trace j)
      | _ => some (.trace j)
  else none

inductive Role where
  | user
  | assistant
  | system
deriving DecidableEq

/-- A chat message as held in the `messages` state (`types.ts`). -/
structure Message where
  id : Str
  conversation_id : Str
  role : Role
  content : Str
  sources : List Str
  agent_trace : List Json
  timestamp : Nat

/-- A conversation list entry (`types.ts`). -/
structure Conversation where
  id : Str
  title : Str
  created_at : Nat
  updated_at : Nat
deriving DecidableEq

/-- The reactive state of the `App` component.  `activeConvRef` always
mirrors `activeConvId` (the source keeps the ref synchronised at every
assignment), so one field models both. -/
structure AppState where
  conversations : List Conversation
  activeConvId : Option Str
  messages : List Message
  isLoading : Bool
  streamingContent : Str
  liveTrace : List Json

/-- External collaborators and the clock, fixed for one step of the
model: the message-list store (`api.getMessages`, success case), the
conversation-list store (`api.listConversations`, success case) and the
current instant. -/
structure Env where
  messagesFor : Str → List Message
  convList : List Conversation
  now : Nat

/-- `Nat` rendered in decimal, for the template literals building
temporary ids. -/
def natStr (n : Nat) : Str := Nat.toDigits 10 n

/-- The optimistic user message built at the top of `sendMessage`
(`types.ts` lines 206–214). -/
def userMessage (convId text : Str) (now : Nat) : Message :=
  { id := ("temp-".toList) ++ natStr now
    conversation_id := convId
    role := .user
    content := text
    sources := []
    agent_trace := []
    timestamp := now }

/-- The synthetic assistant message built by the `onError` callback
(`types.ts` lines 247–255). -/
def errMessage (convId errText : Str) (now : Nat) : Message :=
  { id := ("err-".toList) ++ natStr now
    conversation_id := convId
    role := .assistant
    content := ("❌ Error: ".toList) ++ errText
    sources := []
    agent_trace := []
    timestamp := now }

/-- Application of one classified event by the callbacks passed to
`api.sendChatMessage` (`types.ts` lines 223–261).  The state carries the
`fullResponse` local accumulator of the `sendMessage` closure alongside
the component state. -/
def applyEvent (env : Env) (convId : Str) (st : AppState × Str) :
    Event → AppState × Str
  | .trace j => ({ st.1 with liveTrace := st.1.liveTrace ++ [j] }, st.2)
  | .streamToken m =>
    let fr := st.2 ++ jsCoerce m
    ({ st.1 with streamingContent := fr }, fr)
  | .fullResponse m =>
    ({ st.1 with streamingContent := jsCoerce m }, jsCoerce m)
  | .done =>
    ({ st.1 with
        messages := env.messagesFor convId
        streamingContent := []
        liveTrace := []
        isLoading := false
        conversations := env.convList }, st.2)
  | .error m =>
    ({ st.1 with
        messages := st.1.messages ++ [errMessage convId (jsCoerce m) env.now]
        isLoading := false
        streamingContent := []
        liveTrace := [] }, st.2)

/-- Folding a sequence of classified events through the callbacks, in
arrival order. -/
def runEvents (env : Env) (convId : Str) (st : AppState × Str)
    (es : List Event) : AppState × Str :=
  es.foldl (applyEvent env convId) st

/-- The classification pass of the frame loop: frames that classify to
no event are dropped. -/
def framesToEvents (frames : List Str) : List Event :=
  frames.filterMap classify

/-- How the transport phase of one `sendMessage` call went:
the `fetch` rejected (possibly after some chunks were already
processed), the response carried a non-success status, the response had
no body, or the whole byte stream was read. -/
inductive SendOutcome where
  | rejected (chunks : List Str)
  | httpError (detail : Str)
  | noBody
  | stream (chunks : List Str)

/-- One complete `sendMessage(message, explicitConvId)` call
(`types.ts` lines 201–266), atomised over the given transport outcome.
Returns the resulting state and whether a network request was issued. -/
def sendMessage (env : Env) (app : AppState) (text : Str)
    (explicitConvId : Option Str) (outcome : SendOutcome) :
    AppState × Bool :=
  let convId? :=
    match explicitConvId with
    | some c => some c
    | none => app.activeConvId
  match convId? with
  | none => (app, false)
  | some convId =>
    if convId.isEmpty || app.isLoading then (app, false)
    else
      let app1 : AppState :=
        { app with
            messages := app.messages ++ [userMessage convId text env.now]
            isLoading := true
            streamingContent := []
            liveTrace := [] }
      match outcome with
      | .httpError detail =>
        ((applyEvent env convId (app1, []) (.error (some (.str detail)))).1, true)
      | .noBody =>
        ((applyEvent env convId (app1, [])
            (.error (some (.str ("No response body".toList))))).1, true)
      | .rejected chunks =>
        let st := runEvents env convId (app1, [])
          (framesToEvents (decodeChunks chunks).1)
        ({ st.1 with isLoading := false }, true)
      | .stream chunks =>
        ((runEvents env convId (app1, [])
            (framesToEvents (decodeChunks chunks).1)).1, true)

/-- `selectConversation` (`types.ts` lines 133–141), with the
`loadMessages` fetch succeeding. -/
def selectConversation (env : Env) (app : AppState) (id : Str) : AppState :=
  { app with
      activeConvId := some id
      streamingContent := []
      liveTrace := []
      messages := env.messagesFor id }

/-- `newConversation` (`types.ts` lines 145–159), with the create call
succeeding and returning `conv`. -/
def newConversation (app : AppState) (conv : Conversation) : AppState :=
  { app with
      conversations := conv :: app.conversations
      activeConvId := some conv.id
      messages := []
      streamingContent := []
      liveTrace := [] }

/-- `renameConversation` (`types.ts` lines 162–173): update title and
`updated_at` in place, keeping the list position. -/
def renameConversation (app : AppState) (id title : Str) (now : Nat) :
    AppState :=
  { app with
      conversations := app.conversations.map (fun c =>
        if c.id = id then { c with title := title, updated_at := now } else c) }

/-- `deleteConversation` (`types.ts` lines 176–198): filter the list;
if the active conversation was deleted, select the next most recent
remaining one (or none) and reload its messages. -/
def deleteConversation (env : Env) (app : AppState) (id : Str) : AppState :=
  let remaining := app.conversations.filter (fun c => c.id != id)
  if app.activeConvId = some id then
    match remaining with
    | [] =>
      { app with conversations := [], activeConvId := none, messages := [] }
    | c :: rest =>
      { app with
          conversations := c :: rest
          activeConvId := some c.id
          messages := env.messagesFor c.id }
  else
    { app with conversations := remaining }

/-- The mount effect of `App` (`types.ts` lines 85–103): load the
conversation list and auto-select the first entry (the server returns
the list sorted by `updated_at` descending). -/
def initialLoad (env : Env) (app : AppState) : AppState :=
  match env.convList with
  | [] => { app with conversations := [] }
  | c :: rest =>
    { app with
        conversations := c :: rest
        activeConvId := some c.id
        messages := env.messagesFor c.id }

/-- Sortedness invariant claimed for the Conversation Store. -/
def sortedByUpdatedDesc (l : List Conversation) : Prop :=
  l.Pairwise (fun a b => b.updated_at ≤ a.updated_at)

instance (l : List Conversation) : Decidable (sortedByUpdatedDesc l) :=
  List.instDecidablePairwise l

/-! ### Helper lemmas about event application -/

theorem jsCoerce_str (s : Str) : jsCoerce (some (Json.str s)) = s := rfl

/-- Running a list of `stream_token` events: the closure accumulator
grows by exact concatenation, and the visible streaming text tracks it
(unchanged when no token arrives). -/
theorem runEvents_tokens (env : Env) (convId : Str) (app : AppState)
    (fr : Str) (ts : List Str) :
    (runEvents env convId (app, fr)
        (ts.map (fun t => Event.streamToken (some (Json.str t))))).2 =
      fr ++ ts.flatten ∧
    (runEvents env convId (app, fr)
        (ts.map (fun t => Event.streamToken (some (Json.str t))))).1.streamingContent =
      (if ts = [] then app.streamingContent else fr ++ ts.flatten) := by
  induction ts generalizing app fr with
  | nil => simp [runEvents]
  | cons t ts' ih =>
    have hstep :
        applyEvent env convId (app, fr) (Event.streamToken (some (Json.str t))) =
          ({ app with streamingContent := fr ++ t }, fr ++ t) := rfl
    unfold runEvents at ih ⊢
    rw [List.map_cons, List.foldl_cons, hstep]
    have := ih { app with streamingContent := fr ++ t } (fr ++ t)
    rcases this with ⟨h1, h2⟩
    constructor
    · rw [h1, List.flatten_cons, List.append_assoc]
    · rw [h2]
      cases ts' with
      | nil => simp
      | cons u us => simp [List.append_assoc]

/-- Every event application leaves the active selection untouched. -/
theorem applyEvent_activeConvId (env : Env) (convId : Str)
    (st : AppState × Str) (e : Event) :
    (applyEvent env convId st e).1.activeConvId = st.1.activeConvId := by
  cases e <;> rfl

theorem runEvents_activeConvId (env : Env) (convId : Str)
    (st : AppState × Str) (es : List Event) :
    (runEvents env convId st es).1.activeConvId = st.1.activeConvId := by
  induction es generalizing st with
  | nil => rfl
  | cons e es' ih =>
    unfold runEvents at ih ⊢
    rw [List.foldl_cons, ih (applyEvent env convId st e),
      applyEvent_activeConvId]

/-- Events that are neither `done` nor `error`. -/
def nonTerminal : Event → Bool
  | .done => false
  | .error _ => false
  | _ => true

/-- Trace, token and full-response events touch neither the message
list nor the loading flag. -/
theorem runEvents_nonTerminal (env : Env) (convId : Str)
    (st : AppState × Str) (es : List Event)
    (h : es.all nonTerminal = true) :
    (runEvents env convId st es).1.messages = st.1.messages ∧
    (runEvents env convId st es).1.isLoading = st.1.isLoading := by
  induction es generalizing st with
  | nil => exact ⟨rfl, rfl⟩
  | cons e es' ih =>
    rw [List.all_cons, Bool.and_eq_true] at h
    have hstep :
        (applyEvent env convId st e).1.messages = st.1.messages ∧
        (applyEvent env convId st e).1.isLoading = st.1.isLoading := by
      cases e with
      | done => exact absurd h.1 (by simp [nonTerminal])
      | error m => exact absurd h.1 (by simp [nonTerminal])
      | trace j => exact ⟨rfl, rfl⟩
      | streamToken m => exact ⟨rfl, rfl⟩
      | fullResponse m => exact ⟨rfl, rfl⟩
    unfold runEvents at ih ⊢
    rw [List.foldl_cons]
    have hrest := ih (applyEvent env convId st e) h.2
    exact ⟨hrest.1.trans hstep.1, hrest.2.trans hstep.2⟩

/-! ### Concrete fixtures used by witnesses and counterexamples -/

def env0 : Env := { messagesFor := fun _ => [], convList := [], now := 0 }

def convA : Conversation :=
  { id := ("a".toList), title := ("A".toList), created_at := 0, updated_at := 10 }

def convB : Conversation :=
  { id := ("b".toList), title := ("B".toList), created_at := 0, updated_at := 5 }

def emptyApp : AppState :=
  { conversations := []
    activeConvId := none
    messages := []
    isLoading := false
    streamingContent := []
    liveTrace := [] }

/-- A state with a session in flight (`isLoading` set by an earlier
submit for conversation `a`). -/
def busyApp : AppState :=
  { emptyApp with
      conversations := [convA, convB]
      activeConvId := some ("a".toList)
      isLoading := true }

/-! ### C2 -/

/-- C2: applied in arrival order from the submit-time reset, the
`stream_token` events leave the accumulated streaming text equal to the
exact concatenation of their payload fragments, and a `full_response`
event afterwards sets the accumulator to exactly its payload,
discarding what was accumulated before. -/
theorem streamToken_concat_fullResponse_replaces (env : Env) (convId : Str)
    (app : AppState) (ts : List Str) (es : List Event) (m : Str)
    (h : app.streamingContent = []) :
    ((runEvents env convId (app, [])
        (ts.map (fun t => Event.streamToken (some (Json.str t))))).2 = ts.flatten ∧
      (runEvents env convId (app, [])
        (ts.map (fun t => Event.streamToken (some (Json.str t))))).1.streamingContent =
        ts.flatten) ∧
    ((runEvents env convId (app, [])
        (es ++ [Event.fullResponse (some (Json.str m))])).2 = m ∧
      (runEvents env convId (app, [])
        (es ++ [Event.fullResponse (some (Json.str m))])).1.streamingContent = m) := by
  constructor
  · have := runEvents_tokens env convId app [] ts
    rcases this with ⟨h1, h2⟩
    refine ⟨by simpa using h1, ?_⟩
    rw [h2]
    cases ts with
    | nil => simpa using h
    | cons t ts' => simp
  · unfold runEvents
    rw [List.foldl_append]
    constructor <;> rfl

/-- Witness for C2 at the concrete tokens `Qu`, `antum` and the
replacement text `done.`. -/
theorem streamToken_concat_fullResponse_replaces_witness :
    emptyApp.streamingContent = [] ∧
    (runEvents env0 ("a".toList) (emptyApp, [])
        ([("Qu".toList), ("antum".toList)].map
          (fun t => Event.streamToken (some (Json.str t))))).2 = ("Quantum".toList) ∧
    (runEvents env0 ("a".toList) (emptyApp, [])
        ([Event.streamToken (some (Json.str ("Qu".toList)))] ++
          [Event.fullResponse (some (Json.str ("done.".toList)))])).2 = ("done.".toList) := by
  have h := streamToken_concat_fullResponse_replaces env0 ("a".toList) emptyApp
    [("Qu".toList), ("antum".toList)] [Event.streamToken (some (Json.str ("Qu".toList)))]
    ("done.".toList) rfl
  exact ⟨rfl, h.1.1, h.2.1⟩

/-! ### C4 -/

/-- C4: while a session is in flight (`isLoading` models the
sending/streaming phases), any further submit call is a no-op — the
component state (message list and conversation store included) is
returned unchanged and no request is issued, so the one active session
remains the only one. -/
theorem submit_while_busy_noop (env : Env) (app : AppState) (text : Str)
    (explicitConvId : Option Str) (outcome : SendOutcome)
    (h : app.isLoading = true) :
    sendMessage env app text explicitConvId outcome = (app, false) := by
  unfold sendMessage
  cases explicitConvId with
  | some c => simp [h]
  | none => cases hac : app.activeConvId <;> simp [h]

/-- Witness for C4: a busy state absorbs a submit without change. -/
theorem submit_while_busy_noop_witness :
    busyApp.isLoading = true ∧
    sendMessage env0 busyApp ("hi".toList) none (.stream []) = (busyApp, false) :=
  ⟨rfl, submit_while_busy_noop env0 busyApp ("hi".toList) none (.stream []) rfl⟩

/-! ### C5 -/

/-- Counterexample for C5: the busy flag is a single component-level
`isLoading`, so while the session for conversation `a` is streaming, a
submit explicitly addressed at the different conversation `b` is
refused — the state is unchanged and no request is issued — instead of
being accepted with its own independent session. -/
theorem crossConversation_submit_refused :
    busyApp.isLoading = true ∧
    busyApp.activeConvId = some ("a".toList) ∧
    ("b".toList) ≠ ("a".toList) ∧
    sendMessage env0 busyApp ("hi".toList) (some ("b".toList)) (.stream []) =
      (busyApp, false) :=
  ⟨rfl, rfl, by decide, rfl⟩

/-- C5 as amended: the single-active-session limit is global, not per
conversation — while any session is sending or streaming, a submit
addressed at any conversation, a different one included, is a no-op. -/
theorem global_single_session_limit (env : Env) (app : AppState)
    (text cid : Str) (outcome : SendOutcome)
    (h : app.isLoading = true) (hdiff : app.activeConvId ≠ some cid) :
    sendMessage env app text (some cid) outcome = (app, false) := by
  unfold sendMessage
  simp [h]

/-- Witness for the amended C5. -/
theorem global_single_session_limit_witness :
    busyApp.isLoading = true ∧
    busyApp.activeConvId ≠ some ("b".toList) ∧
    sendMessage env0 busyApp ("hi".toList) (some ("b".toList)) (.noBody) =
      (busyApp, false) := by
  refine ⟨rfl, by decide, ?_⟩
  exact global_single_session_limit env0 busyApp ("hi".toList) ("b".toList)
    (.noBody) rfl (by decide)

/-! ### C6 -/

/-- An idle state with one conversation selected. -/
def idleAppA : AppState :=
  { emptyApp with conversations := [convA], activeConvId := some ("a".toList) }

/-- Counterexample for C6: when the request never got a response (the
`fetch` rejects), the `catch` block of `sendMessage` only resets the
loading flag — no synthetic assistant message is appended to the
message list, contradicting the claim for that failure class.  The
final list holds exactly the optimistic user message. -/
theorem rejected_fetch_appends_no_message :
    (sendMessage env0 idleAppA ("q".toList) none (.rejected [])).1.messages =
      [userMessage ("a".toList) ("q".toList) 0] ∧
    (userMessage ("a".toList) ("q".toList) 0).role = Role.user ∧
    Role.user ≠ Role.assistant ∧
    (sendMessage env0 idleAppA ("q".toList) none (.rejected [])).1.isLoading = false :=
  ⟨rfl, rfl, by decide, rfl⟩

/-- C6 as amended: a non-success response status before streaming is
surfaced as a synthetic assistant message, the session returns to idle
and no partial streaming state is retained; a rejected fetch also
returns the session to idle with no partial streaming state, but
appends no message. -/
theorem transport_failure_surfacing (env : Env) (app : AppState)
    (text convId detail : Str)
    (hconv : convId ≠ []) (hidle : app.isLoading = false) :
    ((sendMessage env app text (some convId) (.httpError detail)).1.messages =
        app.messages ++
          [userMessage convId text env.now, errMessage convId detail env.now] ∧
      (sendMessage env app text (some convId) (.httpError detail)).1.isLoading = false ∧
      (sendMessage env app text (some convId) (.httpError detail)).1.streamingContent = [] ∧
      (sendMessage env app text (some convId) (.httpError detail)).1.liveTrace = []) ∧
    ((sendMessage env app text (some convId) (.rejected [])).1.messages =
        app.messages ++ [userMessage convId text env.now] ∧
      (sendMessage env app text (some convId) (.rejected [])).1.isLoading = false ∧
      (sendMessage env app text (some convId) (.rejected [])).1.streamingContent = [] ∧
      (sendMessage env app text (some convId) (.rejected [])).1.liveTrace = []) := by
  have hne : convId.isEmpty = false := by
    cases convId with
    | nil => exact absurd rfl hconv
    | cons a as => rfl
  unfold sendMessage
  simp [hne, hidle, applyEvent, runEvents, framesToEvents, decodeChunks,
    jsCoerce, jsToStr, List.append_assoc]

/-- Witness for the amended C6. -/
theorem transport_failure_surfacing_witness :
    (("a".toList) : Str) ≠ [] ∧
    idleAppA.isLoading = false ∧
    (sendMessage env0 idleAppA ("q".toList) (some ("a".toList))
        (.httpError ("boom".toList))).1.messages =
      [userMessage ("a".toList) ("q".toList) 0,
        errMessage ("a".toList) ("boom".toList) 0] := by
  refine ⟨by decide, rfl, ?_⟩
  have h := transport_failure_surfacing env0 idleAppA ("q".toList) ("a".toList)
    ("boom".toList) (by decide) rfl
  simpa using h.1.1

/-! ### C7 -/

/-- C7: a frame which carries the data prefix but whose payload fails
structured-data decoding is dropped — classification yields no event, the
stream continues with the subsequent frames, and the session state (all
accumulators included) is unchanged by the malformed frame. -/
theorem malformed_frame_dropped (env : Env) (convId : Str)
    (st : AppState × Str) (frame : Str) (frames : List Str)
    (hdata : (jsTrim frame).take 6 = ("data: ".toList))
    (hparse : jsonParse ((jsTrim frame).drop 6) = none) :
    classify frame = none ∧
    framesToEvents (frame :: frames) = framesToEvents frames ∧
    runEvents env convId st (framesToEvents [frame]) = st := by
  have hcl : classify frame = none := by
    unfold classify
    rw [if_pos hdata, hparse]
  refine ⟨hcl, ?_, ?_⟩
  · unfold framesToEvents
    rw [List.filterMap_cons, hcl]
  · unfold framesToEvents
    simp [List.filterMap_cons, hcl, runEvents]

/-- Witness for C7: the frame `data: {oops` (an unterminated object) is
dropped with no state change. -/
theorem malformed_frame_dropped_witness :
    (jsTrim ("data: \x7boops".toList)).take 6 = ("data: ".toList) ∧
    jsonParse ((jsTrim ("data: \x7boops".toList)).drop 6) = none ∧
    classify ("data: \x7boops".toList) = none ∧
    runEvents env0 ("a".toList) (idleAppA, [])
      (framesToEvents [("data: \x7boops".toList)]) = (idleAppA, []) := by
  have h := malformed_frame_dropped env0 ("a".toList) (idleAppA, [])
    ("data: \x7boops".toList) [] (by decide) (by rfl)
  exact ⟨by decide, by rfl, h.1, h.2.2⟩

/-! ### C3 -/

/-- C3: an `error` event arriving mid-stream after any run of
trace/token/full-response events fails the session — exactly one
synthetic assistant message carrying the error text is appended after
the optimistic user message (which stays in place unchanged), the live
trace and the streaming text buffer are cleared, and loading ends. -/
theorem midstream_error_fails_session (env : Env) (app : AppState)
    (text convId : Str) (chunks : List Str) (es : List Event) (emsg : Str)
    (hconv : convId ≠ []) (hidle : app.isLoading = false)
    (hevents : framesToEvents (decodeChunks chunks).1 =
        es ++ [Event.error (some (Json.str emsg))])
    (hbenign : es.all nonTerminal = true) :
    (sendMessage env app text (some convId) (.stream chunks)).1.messages =
        app.messages ++
          [userMessage convId text env.now, errMessage convId emsg env.now] ∧
    (sendMessage env app text (some convId) (.stream chunks)).1.liveTrace = [] ∧
    (sendMessage env app text (some convId) (.stream chunks)).1.streamingContent = [] ∧
    (sendMessage env app text (some convId) (.stream chunks)).1.isLoading = false := by
  have hne : convId.isEmpty = false := by
    cases convId with
    | nil => exact absurd rfl hconv
    | cons a as => rfl
  have hsend : sendMessage env app text (some convId) (.stream chunks) =
      ((runEvents env convId
          ({ app with
              messages := app.messages ++ [userMessage convId text env.now]
              isLoading := true
              streamingContent := []
              liveTrace := [] }, [])
          (framesToEvents (decodeChunks chunks).1)).1, true) := by
    unfold sendMessage
    simp [hne, hidle]
  set app1 : AppState :=
    { app with
        messages := app.messages ++ [userMessage convId text env.now]
        isLoading := true
        streamingContent := []
        liveTrace := [] } with happ1
  rw [hsend, hevents]
  unfold runEvents
  rw [List.foldl_append]
  set st1 := List.foldl (applyEvent env convId) (app1, []) es with hst1
  have hmsg : st1.1.messages = app1.messages :=
    (runEvents_nonTerminal env convId (app1, []) es hbenign).1
  have hfin :
      List.foldl (applyEvent env convId) st1 [Event.error (some (Json.str emsg))] =
        applyEvent env convId st1 (Event.error (some (Json.str emsg))) := rfl
  rw [hfin]
  refine ⟨?_, rfl, rfl, rfl⟩
  show st1.1.messages ++ [errMessage convId (jsCoerce (some (Json.str emsg))) env.now]
      = app.messages ++ [userMessage convId text env.now, errMessage convId emsg env.now]
  rw [hmsg, happ1]
  simp only [List.append_assoc, List.cons_append, List.nil_append,
    List.append_cancel_left_eq, List.cons.injEq, and_true]
  exact ⟨trivial, rfl⟩

/-- The concrete stream of the C3 scenario: two agent-trace frames, one
token frame, then an error frame. -/
def chunkC3 : Str :=
  ("data: \x7b\"event_type\": \"agent_start\"\x7d\n\ndata: \x7b\"event_type\": \"plan_step\"\x7d\n\ndata: \x7b\"type\": \"stream_token\", \"message\": \"Qu\"\x7d\n\ndata: \x7b\"type\": \"error\", \"message\": \"model unavailable\"\x7d\n\n".toList)

/-- The classification of the three frames before the error frame of
`chunkC3`. -/
def es3 : List Event :=
  [Event.trace (Json.obj [(("event_type".toList), Json.str ("agent_start".toList))]),
    Event.trace (Json.obj [(("event_type".toList), Json.str ("plan_step".toList))]),
    Event.streamToken (some (Json.str ("Qu".toList)))]

/-- Witness for C3: the spec's scenario — two trace events and one token
followed by `error "model unavailable"` leaves exactly the optimistic
user message plus one assistant error message, with no trace panel. -/
theorem midstream_error_fails_session_witness :
    framesToEvents (decodeChunks [chunkC3]).1 =
      es3 ++ [Event.error (some (Json.str ("model unavailable".toList)))] ∧
    (sendMessage env0 idleAppA ("q".toList) (some ("a".toList))
        (.stream [chunkC3])).1.messages =
      [userMessage ("a".toList) ("q".toList) 0,
        errMessage ("a".toList) ("model unavailable".toList) 0] ∧
    (sendMessage env0 idleAppA ("q".toList) (some ("a".toList))
        (.stream [chunkC3])).1.liveTrace = [] ∧
    (sendMessage env0 idleAppA ("q".toList) (some ("a".toList))
        (.stream [chunkC3])).1.streamingContent = [] := by
  have h := midstream_error_fails_session env0 idleAppA ("q".toList) ("a".toList)
    [chunkC3] es3 ("model unavailable".toList) (by decide) rfl (by rfl) (by rfl)
  exact ⟨by rfl, by simpa using h.1, h.2.1, h.2.2.1⟩

/-! ### C8 -/

/-- An idle state holding the two sorted conversations `a` (newer) and
`b` (older). -/
def app8 : AppState :=
  { emptyApp with
      conversations := [convA, convB]
      activeConvId := some ("a".toList) }

/-- Counterexample for C8: renaming updates `updated_at` in place
without repositioning the entry, so renaming the older conversation `b`
at a later instant leaves the list no longer sorted by `updated_at`
descending. -/
theorem rename_breaks_sorted_order :
    sortedByUpdatedDesc app8.conversations ∧
    ¬ sortedByUpdatedDesc
        (renameConversation app8 ("b".toList) ("B2".toList) 20).conversations := by
  constructor
  · decide
  · decide

/-- C8 as amended: load (given a server-sorted list), create (given the
fresh conversation carries the newest timestamp) and delete keep the
conversation list sorted by `updated_at` descending, and on initial
load the first — most recent — conversation is the default selection;
rename, however, rewrites `updated_at` in place and is excluded. -/
theorem conversation_store_sort_amended (env : Env) (app : AppState)
    (conv : Conversation) (id : Str)
    (hs : sortedByUpdatedDesc app.conversations)
    (hserver : sortedByUpdatedDesc env.convList)
    (hnew : ∀ c ∈ app.conversations, c.updated_at ≤ conv.updated_at) :
    sortedByUpdatedDesc (initialLoad env app).conversations ∧
    sortedByUpdatedDesc (newConversation app conv).conversations ∧
    sortedByUpdatedDesc (deleteConversation env app id).conversations ∧
    (∀ c0 rest, env.convList = c0 :: rest →
      (initialLoad env app).activeConvId = some c0.id ∧
      ∀ c' ∈ env.convList, c'.updated_at ≤ c0.updated_at) := by
  refine ⟨?_, ?_, ?_, ?_⟩
  · cases henv : env.convList with
    | nil => simp [initialLoad, henv, sortedByUpdatedDesc]
    | cons c0 rest =>
      have hc : (initialLoad env app).conversations = c0 :: rest := by
        simp [initialLoad, henv]
      rw [hc, ← henv]
      exact hserver
  · exact List.pairwise_cons.mpr ⟨fun a' ha' => hnew a' ha', hs⟩
  · by_cases hact : app.activeConvId = some id
    · cases hrem : app.conversations.filter (fun c => c.id != id) with
      | nil => simp [deleteConversation, hact, hrem, sortedByUpdatedDesc]
      | cons c0 rest =>
        have hc : (deleteConversation env app id).conversations = c0 :: rest := by
          simp [deleteConversation, hact, hrem]
        rw [hc, ← hrem]
        exact List.Pairwise.filter _ hs
    · have hc : (deleteConversation env app id).conversations =
          app.conversations.filter (fun c => c.id != id) := by
        simp [deleteConversation, hact]
      rw [hc]
      exact List.Pairwise.filter _ hs
  · intro c0 rest henv
    constructor
    · simp [initialLoad, henv]
    · intro c' hc'
      rw [henv] at hserver hc'
      rcases List.mem_cons.mp hc' with h | h
      · subst h
        exact le_refl _
      · exact (List.pairwise_cons.mp hserver).1 c' h

/-- The server returning the two sorted conversations. -/
def env1 : Env :=
  { messagesFor := fun _ => [], convList := [convA, convB], now := 0 }

/-- A fresh conversation with the newest timestamp. -/
def convC : Conversation :=
  { id := ("c".toList), title := ("C".toList), created_at := 0, updated_at := 30 }

/-- Witness for the amended C8. -/
theorem conversation_store_sort_amended_witness :
    sortedByUpdatedDesc (newConversation app8 convC).conversations ∧
    (initialLoad env1 emptyApp).activeConvId = some ("a".toList) := by
  have h := conversation_store_sort_amended env1 app8 convC ("b".toList)
    (by decide) (by decide) (by decide)
  refine ⟨h.2.1, ?_⟩
  have h2 := h.2.2.2 convA [convB] rfl
  exact h2.1

/-! ### C9 -/

/-- A state mid-stream for conversation `a`: two trace entries would be
pending in a richer run; one suffices for the counterexample. -/
def app9 : AppState :=
  { emptyApp with
      conversations := [convA, convB]
      activeConvId := some ("a".toList)
      isLoading := true
      streamingContent := ("Qu".toList)
      liveTrace := [Json.null] }

/-- Counterexample for C9: selecting a different conversation while the
session is streaming clears `liveTrace` — the session's trace
accumulator is a single shared buffer, so the selection does affect the
session's accumulators, contrary to the claim. -/
theorem selection_clears_trace_accumulator :
    app9.isLoading = true ∧
    app9.activeConvId = some ("a".toList) ∧
    app9.liveTrace ≠ [] ∧
    (selectConversation env0 app9 ("b".toList)).liveTrace = [] := by
  refine ⟨rfl, rfl, ?_, rfl⟩
  simp [app9, emptyApp]

theorem runEvents_append (env : Env) (convId : Str) (st : AppState × Str)
    (l1 l2 : List Event) :
    runEvents env convId st (l1 ++ l2) =
      runEvents env convId (runEvents env convId st l1) l2 := by
  unfold runEvents
  exact List.foldl_append _ _ _ _

theorem runEvents_single (env : Env) (convId : Str) (st : AppState × Str)
    (e : Event) :
    runEvents env convId st [e] = applyEvent env convId st e := rfl

/-- C9 as amended: selecting a different conversation while a session
is streaming leaves the session's token accumulator intact (subsequent
tokens keep extending the value accumulated before the switch), and on
`done` the reconciliation reload fetches the messages of the
conversation id captured at submission while never force-switching the
active selection; the shared live-trace buffer, however, is cleared by
the selection, and the reload overwrites the single visible message
list. -/
theorem orphaned_session_reload_amended (env : Env) (app : AppState)
    (newId convId fr : Str) (ts : List Str)
    (hstreaming : app.isLoading = true) :
    (selectConversation env app newId).liveTrace = [] ∧
    (runEvents env convId (selectConversation env app newId, fr)
        ((ts.map (fun t => Event.streamToken (some (Json.str t)))) ++
          [Event.done])).2 = fr ++ ts.flatten ∧
    (runEvents env convId (selectConversation env app newId, fr)
        ((ts.map (fun t => Event.streamToken (some (Json.str t)))) ++
          [Event.done])).1.messages = env.messagesFor convId ∧
    (runEvents env convId (selectConversation env app newId, fr)
        ((ts.map (fun t => Event.streamToken (some (Json.str t)))) ++
          [Event.done])).1.activeConvId = some newId := by
  have htok := runEvents_tokens env convId (selectConversation env app newId) fr ts
  have hact := runEvents_activeConvId env convId
    (selectConversation env app newId, fr)
    (ts.map (fun t => Event.streamToken (some (Json.str t))))
  refine ⟨rfl, ?_, ?_, ?_⟩
  · rw [runEvents_append, runEvents_single]
    exact htok.1
  · rw [runEvents_append, runEvents_single]
    rfl
  · rw [runEvents_append, runEvents_single]
    show (runEvents env convId (selectConversation env app newId, fr)
        (ts.map (fun t => Event.streamToken (some (Json.str t))))).1.activeConvId =
      some newId
    rw [hact]
    rfl

/-- Witness for the amended C9: tokens arriving after the selection
continue the accumulator `Qu` into `Quantum`, the reload targets the
captured conversation `a`, and the selection stays on `b`. -/
theorem orphaned_session_reload_amended_witness :
    app9.isLoading = true ∧
    (runEvents env0 ("a".toList) (selectConversation env0 app9 ("b".toList), ("Qu".toList))
        (([("antum".toList)].map (fun t => Event.streamToken (some (Json.str t)))) ++
          [Event.done])).2 = ("Quantum".toList) ∧
    (runEvents env0 ("a".toList) (selectConversation env0 app9 ("b".toList), ("Qu".toList))
        (([("antum".toList)].map (fun t => Event.streamToken (some (Json.str t)))) ++
          [Event.done])).1.activeConvId = some ("b".toList) := by
  have h := orphaned_session_reload_amended env0 app9 ("b".toList) ("a".toList)
    ("Qu".toList) [("antum".toList)] rfl
  exact ⟨rfl, h.2.1.trans (by decide), h.2.2.2⟩

/-! ### C10 -/

/-- C10: deleting a conversation removes exactly the entries carrying
that id; when the deleted conversation is not the active one the rest
of the state (active selection and visible message list included) is
untouched, and when it is the active one the selection moves to the
first remaining conversation — whose messages are loaded — or to none
with an emptied message list when none remain. -/
theorem delete_conversation_scoped (env : Env) (app : AppState) (id : Str) :
    ((deleteConversation env app id).conversations =
        app.conversations.filter (fun c => c.id != id)) ∧
    (∀ c, c ∈ (deleteConversation env app id).conversations ↔
        (c ∈ app.conversations ∧ c.id ≠ id)) ∧
    (app.activeConvId ≠ some id →
        deleteConversation env app id =
          { app with
              conversations := app.conversations.filter (fun c => c.id != id) }) ∧
    (app.activeConvId = some id →
      ∀ c0 rest, app.conversations.filter (fun c => c.id != id) = c0 :: rest →
        (deleteConversation env app id).activeConvId = some c0.id ∧
        (deleteConversation env app id).messages = env.messagesFor c0.id) ∧
    (app.activeConvId = some id →
      app.conversations.filter (fun c => c.id != id) = [] →
        (deleteConversation env app id).activeConvId = none ∧
        (deleteConversation env app id).messages = []) := by
  have hconvs : (deleteConversation env app id).conversations =
      app.conversations.filter (fun c => c.id != id) := by
    by_cases hact : app.activeConvId = some id
    · cases hrem : app.conversations.filter (fun c => c.id != id) with
      | nil => simp [deleteConversation, hact, hrem]
      | cons c0 rest => simp [deleteConversation, hact, hrem]
    · simp [deleteConversation, hact]
  refine ⟨hconvs, ?_, ?_, ?_, ?_⟩
  · intro c
    rw [hconvs, List.mem_filter]
    constructor
    · rintro ⟨h1, h2⟩
      exact ⟨h1, bne_iff_ne.mp h2⟩
    · rintro ⟨h1, h2⟩
      exact ⟨h1, bne_iff_ne.mpr h2⟩
  · intro hact
    simp [deleteConversation, hact]
  · intro hact c0 rest hrem
    constructor <;> simp [deleteConversation, hact, hrem]
  · intro hact hrem
    constructor <;> simp [deleteConversation, hact, hrem]

/-- A state with messages loaded for the active conversation `a`. -/
def app10 : AppState :=
  { emptyApp with
      conversations := [convA, convB]
      activeConvId := some ("a".toList)
      messages := [userMessage ("a".toList) ("m".toList) 0] }

/-- Witness for C10: deleting inactive `b` removes only `b` and leaves
selection and messages alone; deleting active `a` moves the selection
to `b` and reloads (here: empties) the message list. -/
theorem delete_conversation_scoped_witness :
    app10.activeConvId ≠ some ("b".toList) ∧
    deleteConversation env0 app10 ("b".toList) =
      { app10 with conversations := [convA] } ∧
    (deleteConversation env0 app10 ("a".toList)).activeConvId =
      some ("b".toList) ∧
    (deleteConversation env0 app10 ("a".toList)).messages = [] := by
  have h1 := (delete_conversation_scoped env0 app10 ("b".toList)).2.2.1
    (by decide)
  have h2 := (delete_conversation_scoped env0 app10 ("a".toList)).2.2.2.1
    rfl convB [] (by decide)
  exact ⟨by decide, h1.trans (by rfl), h2.1.trans (by rfl), h2.2.trans (by rfl)⟩
